import Mathlib

/-!
Shallow embedding of the portfolio state derivation engine of the
portfolio_manager repository, together with theorems settling the claims
about it.  Money amounts, prices and share counts are modelled as exact
rationals; database rows become Lean structures and the pandas pipelines
become list computations.  Every definition is translated from the Python
source (src/core/cash_flow.py, src/core/calculator.py,
src/core/correlation.py, src/core/attribution.py,
src/decision/position_manager.py); the original Chinese string literals
for transaction types, option types, statuses and cash flow types are kept
verbatim.
-/

namespace PortfolioManager

/-- Row of the transactions table (the columns used by the engine). -/
structure Transaction where
  stockSymbol : String
  accountName : String
  /-- transaction_type column: the literal 买入 (buy) or 卖出 (sell). -/
  transactionType : String
  price : ℚ
  shares : ℚ
  commission : ℚ
deriving DecidableEq, Repr

/-- Row of the cash_flows table (the columns used by the engine). -/
structure CashFlowEntry where
  accountName : String
  flowType : String
  amount : ℚ
deriving DecidableEq, Repr

/-- Row of the options_trades table (the columns used by the engine).
A missing close_price_per_share (SQL NULL) is modelled as none. -/
structure OptionTrade where
  stockSymbol : String
  accountName : String
  /-- option_type column: 卖Call, 卖Put, 买Call or 买Put. -/
  optionType : String
  strikePrice : ℚ
  premiumPerShare : ℚ
  contracts : ℚ
  openingFee : ℚ
  closingFee : ℚ
  closePricePerShare : Option ℚ
  /-- status column: 持仓中 (open) or a closed status such as 已平仓. -/
  status : String
deriving DecidableEq, Repr

/-! ### CashFlowManager.auto_generate_from_transaction (src/core/cash_flow.py) -/

/-- Cash flow rows written by auto_generate_from_transaction for one
transaction: a main row (买入: amount −(price·shares+commission);
卖出: amount price·shares−commission) and, when commission > 0, a second
佣金 row of −commission. -/
def auto_generate_from_transaction (t : Transaction) : List CashFlowEntry :=
  let totalAmount := t.price * t.shares
  let mainRow : CashFlowEntry :=
    if t.transactionType = "买入" then
      { accountName := t.accountName, flowType := "股票买入"
        amount := -(totalAmount + t.commission) }
    else
      { accountName := t.accountName, flowType := "股票卖出"
        amount := totalAmount - t.commission }
  if 0 < t.commission then
    [mainRow,
     { accountName := t.accountName, flowType := "佣金", amount := -t.commission }]
  else
    [mainRow]

/-- Sum of the amount column over a list of cash flow rows. -/
def sumAmounts (l : List CashFlowEntry) : ℚ :=
  (l.map (·.amount)).sum

/-! ### Realized option P&L, computed at three sites

The same per-option formula appears in PortfolioCalculator.calculate_realized_pnl
(src/core/calculator.py), in AttributionAnalyzer._calculate_strategy_alpha
(src/core/attribution.py) and in the 净盈亏 column of
PortfolioCalculator.calculate_options_summary (src/core/calculator.py).
Each site is embedded separately, following its own Python text. -/

/-- Per-option realized P&L as computed inside calculate_realized_pnl:
premium and close amount are per-share values times contracts times 100,
the close price defaults to 0 when missing (Python close_price or 0). -/
def realizedPnlOfOption (o : OptionTrade) : ℚ :=
  let premium := o.premiumPerShare * o.contracts * 100
  let closeAmount := (o.closePricePerShare.getD 0) * o.contracts * 100
  let fees := o.openingFee + o.closingFee
  if o.optionType = "卖Call" ∨ o.optionType = "卖Put" then
    premium - closeAmount - fees
  else
    closeAmount - premium - fees

/-- Per-option P&L as computed inside _calculate_strategy_alpha, before the
division by total capital. -/
def strategyAlphaPnlOfOption (o : OptionTrade) : ℚ :=
  let premium := o.premiumPerShare * o.contracts * 100
  let closeAmount := (o.closePricePerShare.getD 0) * o.contracts * 100
  let fees := o.openingFee + o.closingFee
  if o.optionType = "卖Call" ∨ o.optionType = "卖Put" then
    premium - closeAmount - fees
  else
    closeAmount - premium - fees

/-- 总权利金 column of calculate_options_summary. -/
def summaryPremiumTotal (o : OptionTrade) : ℚ :=
  o.premiumPerShare * o.contracts * 100

/-- 平仓金额 column of calculate_options_summary: close price times
contracts times 100 when the close price is present (pd.notna), else 0. -/
def summaryCloseAmount (o : OptionTrade) : ℚ :=
  match o.closePricePerShare with
  | some c => c * o.contracts * 100
  | none => 0

/-- 净盈亏 column of calculate_options_summary. -/
def summaryNetPnl (o : OptionTrade) : ℚ :=
  if o.optionType = "卖Call" ∨ o.optionType = "卖Put" then
    summaryPremiumTotal o - summaryCloseAmount o - o.openingFee - o.closingFee
  else
    summaryCloseAmount o - summaryPremiumTotal o - o.openingFee - o.closingFee

/-- 锁定资本 column of calculate_options_summary: a cash-secured put that is
still open reserves strike·contracts·100, every other row reserves 0. -/
def lockedCapital (o : OptionTrade) : ℚ :=
  if o.optionType = "卖Put" ∧ o.status = "持仓中" then
    o.strikePrice * o.contracts * 100
  else
    0

/-! ### PortfolioCalculator.calculate_stock_summary (src/core/calculator.py)

The pandas pipeline adds per-row signed share and cash columns, groups by
(stock_symbol, account_name), keeps groups with positive net shares and
derives 平均成本 and 总投入.  The 锁定股数/可用股数 merge with open covered
calls only appends extra columns and is not needed by any claim, so the
embedded row keeps the aggregated columns. -/

/-- signed_shares column: shares for 买入, minus shares otherwise. -/
def signedShares (t : Transaction) : ℚ :=
  if t.transactionType = "买入" then t.shares else -t.shares

/-- signed_amount column: −(price·shares+commission) for 买入,
price·shares−commission otherwise. -/
def signedAmount (t : Transaction) : ℚ :=
  if t.transactionType = "买入" then
    -(t.price * t.shares + t.commission)
  else
    t.price * t.shares - t.commission

/-- Transactions belonging to one (symbol, account) group. -/
def groupTransactions (ts : List Transaction) (sym acct : String) : List Transaction :=
  ts.filter (fun t => t.stockSymbol = sym ∧ t.accountName = acct)

/-- 当前股数 of a group: sum of signed shares. -/
def groupShares (ts : List Transaction) (sym acct : String) : ℚ :=
  ((groupTransactions ts sym acct).map signedShares).sum

/-- 净现金流 of a group: sum of signed amounts. -/
def groupCashFlow (ts : List Transaction) (sym acct : String) : ℚ :=
  ((groupTransactions ts sym acct).map signedAmount).sum

/-- Aggregated summary row for one (symbol, account) group. -/
structure StockRow where
  symbol : String
  account : String
  currentShares : ℚ
  netCashFlow : ℚ
  avgCost : ℚ
  totalInvested : ℚ
deriving DecidableEq, Repr

/-- Summary row of one group, present only when the net share count is
positive (the summary[当前股数 > 0] filter); 平均成本 is
|净现金流|/当前股数 and 总投入 is 平均成本·当前股数. -/
def stockRow (ts : List Transaction) (sym acct : String) : Option StockRow :=
  let sh := groupShares ts sym acct
  let cf := groupCashFlow ts sym acct
  if 0 < sh then
    let avg := if 0 < sh then |cf| / sh else 0
    some { symbol := sym, account := acct, currentShares := sh,
           netCashFlow := cf, avgCost := avg, totalInvested := avg * sh }
  else
    none

/-- Distinct (stock_symbol, account_name) keys of the groupby. -/
def groupKeys (ts : List Transaction) : List (String × String) :=
  (ts.map (fun t => (t.stockSymbol, t.accountName))).dedup

/-- calculate_stock_summary: one row per (symbol, account) group with a
positive net share count. -/
def calculate_stock_summary (ts : List Transaction) : List StockRow :=
  (groupKeys ts).filterMap (fun k => stockRow ts k.1 k.2)

/-! ### PortfolioCalculator.calculate_account_overview (src/core/calculator.py)

The overview is computed for one account row; the account lookup itself
(an empty dict is returned when the account does not exist) stays outside
the embedding, which starts from the found account configuration.  The
price side of the computation is modelled by a total map from symbol to an
optional current price; a missing or zero price falls back to the cost
basis exactly as the Python does, and the except branch that falls back to
cost for every symbol coincides with the all-missing map. -/

/-- Account configuration columns used by the overview. -/
structure Account where
  totalCapital : ℚ
  cashReserve : ℚ
  conditionalReserve : ℚ
deriving DecidableEq, Repr

/-- Transactions of one account (db.get_transactions account filter). -/
def accountTransactions (ts : List Transaction) (acct : String) : List Transaction :=
  ts.filter (fun t => t.accountName = acct)

/-- Option trades of one account (db.get_options_trades account filter). -/
def accountOptions (opts : List OptionTrade) (acct : String) : List OptionTrade :=
  opts.filter (fun o => o.accountName = acct)

/-- Cash flows of one account (db.get_cash_flows account filter). -/
def accountFlows (flows : List CashFlowEntry) (acct : String) : List CashFlowEntry :=
  flows.filter (fun f => f.accountName = acct)

/-- Open rows of an options summary (status == 持仓中). -/
def openOptions (opts : List OptionTrade) : List OptionTrade :=
  opts.filter (fun o => o.status = "持仓中")

/-- Market value contribution of one stock row: current price times share
count when a truthy price is available, otherwise the cost basis 总投入. -/
def stockValueOfRow (prices : String → Option ℚ) (r : StockRow) : ℚ :=
  match prices r.symbol with
  | some p => if p ≠ 0 then p * r.currentShares else r.totalInvested
  | none => r.totalInvested

/-- Overview fields returned by calculate_account_overview that the claims
refer to. -/
structure Overview where
  totalCapital : ℚ
  stockInvestment : ℚ
  lockedCash : ℚ
  availableCash : ℚ
  netCashFlow : ℚ
  currentStockValue : ℚ
  currentTotalAssets : ℚ
  totalPnl : ℚ
  pnlRatio : ℚ
deriving DecidableEq, Repr

/-- calculate_account_overview for one existing account. -/
def calculate_account_overview (acct : Account) (accountName : String)
    (ts : List Transaction) (opts : List OptionTrade)
    (flows : List CashFlowEntry) (prices : String → Option ℚ) : Overview :=
  let stocks := calculate_stock_summary (accountTransactions ts accountName)
  let stockInvestment := (stocks.map (·.totalInvested)).sum
  let opn := openOptions (accountOptions opts accountName)
  let lockedCash := (opn.map lockedCapital).sum
  let relevantFlows := (accountFlows flows accountName).filter
    (fun f => f.flowType = "利息" ∨ f.flowType = "存入" ∨ f.flowType = "取出")
  let netCashFlow := (relevantFlows.map (·.amount)).sum
  let currentStockValue := (stocks.map (stockValueOfRow prices)).sum
  let availableCash := acct.totalCapital - (stockInvestment + lockedCash)
  let currentTotalAssets := currentStockValue + availableCash + lockedCash
  let totalPnl := currentTotalAssets - acct.totalCapital - netCashFlow
  let baseCapital := acct.totalCapital + netCashFlow
  let pnlRatio := if 0 < baseCapital then totalPnl / baseCapital * 100 else 0
  { totalCapital := acct.totalCapital
    stockInvestment := stockInvestment
    lockedCash := lockedCash
    availableCash := availableCash
    netCashFlow := netCashFlow
    currentStockValue := currentStockValue
    currentTotalAssets := currentTotalAssets
    totalPnl := totalPnl
    pnlRatio := pnlRatio }

/-! ### PositionManager.get_position_analysis (src/decision/position_manager.py)

Embedded here is the body of the per-target loop for a target of type 股数
(shares).  The Python variable current_price at that point is either the
dictionary lookup current_prices.get(symbol), which may be None, or the
fallback avg_cost when no price dictionary is available; the parameter
currentPrice models the resulting optional value, and a present price of 0
is treated as falsy exactly as the Python conditional expression does.
The parameters targetShares and threshold carry the values after the
Python defaults (target_shares or 0, rebalance_threshold or 10). -/

/-- Analysis record built for one position target. -/
structure TargetAnalysis where
  targetAmount : ℚ
  deviationAmount : ℚ
  deviationPct : ℚ
  needsRebalance : Bool
  action : String
  actionShares : ℚ
deriving DecidableEq, Repr

/-- Loop body of get_position_analysis for a 股数 (SHARES) target.  The
avg_cost fallback of the Python current_price assignment is reflected by
the caller passing some avgCost for currentPrice. -/
def sharesTargetAnalysis (currentShares currentAmount : ℚ)
    (currentPrice : Option ℚ) (targetShares threshold : ℚ) : TargetAnalysis :=
  let targetAmount :=
    match currentPrice with
    | some p => if p ≠ 0 then targetShares * p else 0
    | none => 0
  let deviationAmount := currentAmount - targetAmount
  let deviationPct :=
    if 0 < targetAmount then (currentAmount / targetAmount - 1) * 100 else 0
  let needsRebalance : Bool := threshold < |deviationPct|
  let sharesDiff := currentShares - targetShares
  if 0 < sharesDiff then
    { targetAmount := targetAmount, deviationAmount := deviationAmount
      deviationPct := deviationPct, needsRebalance := needsRebalance
      action := "减仓", actionShares := sharesDiff }
  else if sharesDiff < 0 then
    { targetAmount := targetAmount, deviationAmount := deviationAmount
      deviationPct := deviationPct, needsRebalance := needsRebalance
      action := if currentShares = 0 then "开仓" else "加仓"
      actionShares := |sharesDiff| }
  else
    { targetAmount := targetAmount, deviationAmount := deviationAmount
      deviationPct := deviationPct, needsRebalance := needsRebalance
      action := "持有", actionShares := 0 }

/-! ### CashFlowManager.get_cash_flow_statement (src/core/cash_flow.py) -/

/-- Operating cash flow types (经营活动). -/
def operatingTypes : List String :=
  ["分红", "期权权利金收入", "期权权利金支出", "期权平仓", "利息"]

/-- Investing cash flow types (投资活动). -/
def investingTypes : List String :=
  ["股票买入", "股票卖出"]

/-- Financing cash flow types (融资活动). -/
def financingTypes : List String :=
  ["存入", "取出"]

/-- Every flow type that contributes to some bucket of the statement. -/
def enumeratedTypes : List String :=
  operatingTypes ++ investingTypes ++ financingTypes ++ ["佣金"]

/-- Totals of the cash flow statement (小计 of the three buckets, 佣金支出
and 净现金流). -/
structure CashFlowStatement where
  operatingTotal : ℚ
  investingTotal : ℚ
  financingTotal : ℚ
  commissionTotal : ℚ
  netCashFlow : ℚ
deriving DecidableEq, Repr

/-- get_cash_flow_statement: bucket subtotals by membership of the flow
type in the fixed type lists, with the net as their sum; the empty input
returns the all-zero statement through the early flows.empty branch. -/
def get_cash_flow_statement (flows : List CashFlowEntry) : CashFlowStatement :=
  match flows with
  | [] => { operatingTotal := 0, investingTotal := 0, financingTotal := 0,
            commissionTotal := 0, netCashFlow := 0 }
  | _ =>
    let operatingTotal := sumAmounts (flows.filter (fun f => f.flowType ∈ operatingTypes))
    let investingTotal := sumAmounts (flows.filter (fun f => f.flowType ∈ investingTypes))
    let financingTotal := sumAmounts (flows.filter (fun f => f.flowType ∈ financingTypes))
    let commissionTotal := sumAmounts (flows.filter (fun f => f.flowType = "佣金"))
    { operatingTotal := operatingTotal
      investingTotal := investingTotal
      financingTotal := financingTotal
      commissionTotal := commissionTotal
      netCashFlow := operatingTotal + investingTotal + financingTotal + commissionTotal }

/-! ### CorrelationAnalyzer.calculate_correlation_matrix (src/core/correlation.py)

The database side is modelled by a map from symbol to its queried
(price_date, daily_return) rows inside the lookback window, with a SQL
NULL daily_return as none; dates are coded as naturals.  Building the
DataFrame from the per-symbol series aligns them on the union of their
date indices and dropna keeps exactly the dates on which every selected
symbol has a present return.  The numeric Pearson matrix returns_df.corr()
is floating point and no claim depends on its entries, so the successful
result carries the aligned return table the matrix is computed from,
together with the summary fields that are not derived from matrix
entries. -/

/-- Symbols that contribute a return series: listed, with a nonempty query
result, deduplicated as dictionary keys. -/
def returnKeys (holdings : List String)
    (fetch : String → List (Nat × Option ℚ)) : List String :=
  (holdings.filter (fun s => fetch s ≠ [])).dedup

/-- Union of the date indices of the selected series. -/
def unionDates (keys : List String)
    (fetch : String → List (Nat × Option ℚ)) : List Nat :=
  (keys.flatMap (fun s => (fetch s).map Prod.fst)).dedup

/-- Dates kept by dropna: every selected symbol has a present return. -/
def alignedDates (keys : List String)
    (fetch : String → List (Nat × Option ℚ)) : List Nat :=
  (unionDates keys fetch).filter
    (fun d => keys.all (fun s => (fetch s).any (fun r => r.1 = d ∧ r.2.isSome)))

/-- Aligned daily-return table (the returns_df after dropna) from which
the correlation matrix is computed. -/
structure AlignedReturns where
  symbols : List String
  dates : List Nat
deriving DecidableEq, Repr

/-- Summary statistics fields that accompany the matrix. -/
structure CorrStats where
  lookbackPeriod : Nat
  symbols : List String
deriving DecidableEq, Repr

/-- calculate_correlation_matrix: none models the (None, None) return of
the three insufficient-data guards; otherwise the aligned table and the
stats are returned. -/
def calculate_correlation_matrix (holdings : List String) (lookbackDays : Nat)
    (fetch : String → List (Nat × Option ℚ)) : Option (AlignedReturns × CorrStats) :=
  if holdings.length < 2 then none
  else
    let keys := returnKeys holdings fetch
    if keys.length < 2 then none
    else
      let aligned := alignedDates keys fetch
      if aligned.length < 10 then none
      else some ({ symbols := keys, dates := aligned },
                 { lookbackPeriod := lookbackDays, symbols := holdings })

/-! ### Correlation matrix consumers (src/core/correlation.py)

identify_correlation_clusters, calculate_effective_n and
calculate_diversification_score consume an already-computed correlation
matrix.  The matrix is modelled as its ordered column list together with a
total entry function; pandas label lookup on a symbol outside the matrix
raises and is outside this model. -/

/-- Correlation matrix: ordered columns and entry lookup. -/
structure CorrMatrix where
  symbols : List String
  entry : String → String → ℚ

/-- Mean of column j of the strict upper triangle mask: the j entries
above the diagonal divided by j. -/
def upperColMean (m : CorrMatrix) (j : Nat) : ℚ :=
  (((List.range j).map
    (fun i => m.entry (m.symbols.getD i "") (m.symbols.getD j ""))).sum) / j

/-- Mean of the column means of the masked matrix, as pandas
where(mask).mean().mean() computes it: column 0 is all-NaN and skipped,
and a matrix with fewer than two columns yields NaN, modelled as none. -/
def avgUpperCorrelation (m : CorrMatrix) : Option ℚ :=
  let n := m.symbols.length
  if 2 ≤ n then
    some (((List.range n).drop 1 |>.map (upperColMean m)).sum / (n - 1 : ℕ))
  else
    none

/-! #### identify_correlation_clusters -/

/-- Cluster record emitted for a group of mutually absorbed symbols. -/
structure Cluster where
  symbols : List String
  avgCorrelation : ℚ
  size : Nat

/-- Inner absorption loop: scan every indexed column, absorbing each
unvisited symbol at a different index whose absolute correlation with the
seed reaches the threshold, marking it visited; returns the absorbed
symbols in scan order and the final visited list. -/
def absorbGo (e : String → String → ℚ) (th : ℚ) (s1 : String) (i : Nat) :
    List (Nat × String) → List String → List String × List String
  | [], visited => ([], visited)
  | (j, s2) :: rest, visited =>
    if i ≠ j ∧ s2 ∉ visited ∧ th ≤ |e s1 s2| then
      let out := absorbGo e th s1 i rest (visited ++ [s2])
      (s2 :: out.1, out.2)
    else
      absorbGo e th s1 i rest visited

/-- Outer loop: each unvisited symbol seeds a cluster, runs the absorption
scan over the full column list, and the cluster is emitted when it has
more than one member. -/
def clustersGo (e : String → String → ℚ) (th : ℚ) (all : List (Nat × String)) :
    List (Nat × String) → List String → List Cluster
  | [], _ => []
  | (i, s1) :: rest, visited =>
    if s1 ∈ visited then
      clustersGo e th all rest visited
    else
      let out := absorbGo e th s1 i all (visited ++ [s1])
      let cluster := s1 :: out.1
      if 1 < cluster.length then
        { symbols := cluster
          avgCorrelation := (avgUpperCorrelation { symbols := cluster, entry := e }).getD 0
          size := cluster.length } :: clustersGo e th all rest out.2
      else
        clustersGo e th all rest out.2

/-- identify_correlation_clusters on a present matrix. -/
def identify_correlation_clusters (m : CorrMatrix) (th : ℚ) : List Cluster :=
  clustersGo m.entry th m.symbols.enum m.symbols.enum []

/-! #### calculate_effective_n and calculate_diversification_score -/

/-- Dictionary lookup weights.get(sym, 0) on a weight list. -/
def weightOf (wl : List (String × ℚ)) (s : String) : ℚ :=
  match wl.find? (fun p => p.1 = s) with
  | some p => p.2
  | none => 0

/-- Default equal weights dictionary 1/n per distinct holding symbol. -/
def defaultWeights (holdings : List String) : List (String × ℚ) :=
  holdings.dedup.map (fun s => (s, 1 / (holdings.length : ℚ)))

/-- HHI: sum of squared values of the weights dictionary. -/
def hhiOf (wl : List (String × ℚ)) : ℚ :=
  (wl.map (fun p => p.2 ^ 2)).sum

/-- Ordered position pairs i < j of the holdings list. -/
def indexPairs (holdings : List String) : List (String × String) :=
  holdings.enum.flatMap (fun p =>
    holdings.enum.filterMap (fun q =>
      if p.1 < q.1 then some (p.2, q.2) else none))

/-- calculate_effective_n: inverse HHI, scaled down by the weighted average
absolute pairwise correlation when a matrix is given, floored at 1. -/
def calculate_effective_n (holdings : List String) (mOpt : Option CorrMatrix)
    (wOpt : Option (List (String × ℚ))) : ℚ :=
  let n := holdings.length
  if n = 0 then 0
  else
    let wl := match wOpt with
      | none => defaultWeights holdings
      | some w => w
    let hhi := hhiOf wl
    let basic := if 0 < hhi then 1 / hhi else (n : ℚ)
    let adjusted := match mOpt with
      | none => basic
      | some m =>
        let pairs := indexPairs holdings
        let tw := (pairs.map (fun pq => weightOf wl pq.1 * weightOf wl pq.2)).sum
        let wc := (pairs.map
          (fun pq => weightOf wl pq.1 * weightOf wl pq.2 * |m.entry pq.1 pq.2|)).sum
        if 0 < tw then basic * (1 - wc / tw) else basic
    max 1 adjusted

/-- Holding-count sub-score (0 to 25). -/
def countScore (n : Nat) : Nat :=
  if 15 ≤ n then 25 else if 10 ≤ n then 20 else if 5 ≤ n then 15
  else if 3 ≤ n then 10 else 5

/-- Correlation sub-score (0 to 35); the none case covers both an absent
matrix and the NaN mean of a matrix with fewer than two columns, for which
every band comparison is false and the default 35 stands. -/
def corrScore (avgCorr : Option ℚ) : Nat :=
  match avgCorr with
  | none => 35
  | some a =>
    if (8 : ℚ)/10 ≤ a then 5 else if (6 : ℚ)/10 ≤ a then 15
    else if (4 : ℚ)/10 ≤ a then 25 else 35

/-- Effective-N ratio sub-score (0 to 20). -/
def effectiveScore (ratio : ℚ) : Nat :=
  if (8 : ℚ)/10 ≤ ratio then 20 else if (6 : ℚ)/10 ≤ ratio then 15
  else if (4 : ℚ)/10 ≤ ratio then 10 else 5

/-- Sector lookup sector_data.get(sym) on a sector dictionary. -/
def sectorLookup (sd : List (String × String)) (s : String) : Option String :=
  (sd.find? (fun p => p.1 = s)).map (·.2)

/-- Count of distinct truthy sectors of the holdings. -/
def uniqueSectors (holdings : List String) (sd : List (String × String)) : Nat :=
  ((holdings.filterMap (fun s =>
    match sectorLookup sd s with
    | some sec => if sec ≠ "" then some sec else none
    | none => none)).dedup).length

/-- Sector sub-score (0 to 20) together with the distinct sector count; a
missing or empty sector dictionary is falsy and keeps the default 10 with
count 0. -/
def sectorScoreAndCount (holdings : List String)
    (sdOpt : Option (List (String × String))) : Nat × Nat :=
  match sdOpt with
  | none => (10, 0)
  | some [] => (10, 0)
  | some sd =>
    let u := uniqueSectors holdings sd
    (if 5 ≤ u then 20 else if 3 ≤ u then 15 else if 2 ≤ u then 10 else 5, u)

/-- Result record of calculate_diversification_score. -/
structure DiversificationResult where
  score : Nat
  rating : String
  countScoreVal : Nat
  corrScoreVal : Nat
  effectiveScoreVal : Nat
  sectorScoreVal : Nat
  effectiveN : ℚ
deriving DecidableEq, Repr

/-- calculate_diversification_score: the four sub-scores summed, with the
empty-holdings early return of score 0 and rating 无持仓. -/
def calculate_diversification_score (holdings : List String)
    (mOpt : Option CorrMatrix) (wOpt : Option (List (String × ℚ)))
    (sdOpt : Option (List (String × String))) : DiversificationResult :=
  match holdings with
  | [] =>
    { score := 0, rating := "无持仓", countScoreVal := 0, corrScoreVal := 0,
      effectiveScoreVal := 0, sectorScoreVal := 0, effectiveN := 0 }
  | _ =>
    let n := holdings.length
    let cs := countScore n
    let crs := match mOpt with
      | none => 35
      | some m => corrScore (avgUpperCorrelation m)
    let effN := calculate_effective_n holdings mOpt wOpt
    let ratio := if 0 < n then effN / (n : ℚ) else 0
    let es := effectiveScore ratio
    let sc := sectorScoreAndCount holdings sdOpt
    let total := cs + crs + es + sc.1
    { score := total
      rating := if 80 ≤ total then "优秀" else if 60 ≤ total then "良好"
                else if 40 ≤ total then "一般" else "较差"
      countScoreVal := cs, corrScoreVal := crs, effectiveScoreVal := es,
      sectorScoreVal := sc.1, effectiveN := effN }

/-! ## Theorems settling the claims -/

/-- C1: for the stock BUY transaction with shares=10, price=20,
commission=5, the cash flow rows generated by auto_generate_from_transaction
sum to −210, not the −205 = −(price·shares+commission) the claim requires:
the main row already contains the commission and the separate 佣金 row
subtracts it a second time. -/
theorem buy_cash_flow_sum_failing_input :
    sumAmounts (auto_generate_from_transaction
      { stockSymbol := "NVDA", accountName := "acc", transactionType := "买入",
        price := 20, shares := 10, commission := 5 }) = -210 ∧
    ((-210 : ℚ) ≠ -205) := by
  refine ⟨?_, by norm_num⟩
  norm_num [auto_generate_from_transaction, sumAmounts]

/-- C7: the per-option realized P&L of calculate_realized_pnl, of the
strategy-alpha computation in attribution, and of the 净盈亏 column of
calculate_options_summary agree on every option record, and all equal
premium−close−fees for short types and close−premium−fees otherwise, with
a missing close price contributing 0. -/
theorem realized_pnl_formula_agreement (o : OptionTrade) :
    strategyAlphaPnlOfOption o = realizedPnlOfOption o ∧
    summaryNetPnl o = realizedPnlOfOption o ∧
    realizedPnlOfOption o =
      (if o.optionType = "卖Call" ∨ o.optionType = "卖Put" then
        o.premiumPerShare * o.contracts * 100
          - (o.closePricePerShare.getD 0) * o.contracts * 100
          - (o.openingFee + o.closingFee)
      else
        (o.closePricePerShare.getD 0) * o.contracts * 100
          - o.premiumPerShare * o.contracts * 100
          - (o.openingFee + o.closingFee)) := by
  refine ⟨rfl, ?_, rfl⟩
  unfold summaryNetPnl realizedPnlOfOption summaryPremiumTotal summaryCloseAmount
  cases o.closePricePerShare <;> simp only [Option.getD] <;> split <;> ring

/-- C5: calculate_correlation_matrix returns the insufficient-data signal
none exactly when fewer than 2 symbols are supplied, or fewer than 2
symbols have return data, or fewer than 10 aligned observations survive
the inner join and dropna. -/
theorem correlation_matrix_guard (holdings : List String) (lookbackDays : Nat)
    (fetch : String → List (Nat × Option ℚ)) :
    calculate_correlation_matrix holdings lookbackDays fetch = none ↔
      (holdings.length < 2 ∨ (returnKeys holdings fetch).length < 2 ∨
       (alignedDates (returnKeys holdings fetch) fetch).length < 10) := by
  simp only [calculate_correlation_matrix]
  split_ifs with h1 h2 h3
  · simp [h1]
  · simp [h2]
  · simp [h3]
  · simp [h1, h2, h3]

/-- C2 counterexample: a SHARES target with current_shares = target_shares
= 10, average cost 100 (so current amount 1000) and live price 50 yields
action 持有 but needs_rebalance = true, refuting the claim that
needs_rebalance is False regardless of the live price. -/
theorem shares_target_price_counterexample :
    (sharesTargetAnalysis 10 1000 (some 50) 10 10).action = "持有" ∧
    (sharesTargetAnalysis 10 1000 (some 50) 10 10).needsRebalance = true := by
  constructor <;> norm_num [sharesTargetAnalysis]

/-- C2 amended: for a SHARES target with current_shares = target_shares,
the suggested action is always 持有 (hold); needs_rebalance is False when
the price used for the target amount equals the average cost and the
current amount is avgCost·shares (in particular whenever no live price is
available and the average-cost fallback applies), with a nonnegative
rebalance threshold. -/
theorem shares_target_hold (cs ca ac tgt th : ℚ) (cp : Option ℚ)
    (heq : cs = tgt) (hth : 0 ≤ th) :
    (sharesTargetAnalysis cs ca cp tgt th).action = "持有" ∧
    (sharesTargetAnalysis cs (ac * cs) (some ac) tgt th).needsRebalance = false := by
  subst heq
  constructor
  · simp [sharesTargetAnalysis]
  · have hdev : (if (0 : ℚ) < (if ac ≠ 0 then cs * ac else 0)
        then ((ac * cs) / (if ac ≠ 0 then cs * ac else 0) - 1) * 100 else 0) = 0 := by
      by_cases hac : ac = 0
      · simp [hac]
      · by_cases hta : (0 : ℚ) < cs * ac
        · rw [if_pos hac, if_pos hta, mul_comm ac cs, div_self (ne_of_gt hta)]
          ring
        · rw [if_pos hac, if_neg hta]
    simp only [sharesTargetAnalysis, sub_self, lt_irrefl, if_false, lt_self_iff_false]
    simp only [ne_eq, hdev, abs_zero]
    simp [not_lt.mpr hth]

/-- C2 amended claim witness at a concrete input. -/
theorem shares_target_hold_witness :
    (sharesTargetAnalysis 10 1000 (some 100) 10 10).action = "持有" ∧
    (sharesTargetAnalysis 10 (100 * 10) (some 100) 10 10).needsRebalance = false :=
  shares_target_hold 10 1000 100 10 10 (some 100) rfl (by norm_num)

/-- C3 counterexample: an account with total_capital 100 and a single 取出
cash flow of −200 gives denominator total_capital+net_cash_flow = −100,
which is nonzero, yet the returned pnl_ratio is 0 while the formula value
is −200: the code guards with a strictly-positive test, not a nonzero
test. -/
theorem pnl_ratio_negative_denominator_counterexample :
    ((calculate_account_overview ⟨100, 0, 0⟩ "acc" [] []
        [⟨"acc", "取出", -200⟩] (fun _ => none)).totalCapital
      + (calculate_account_overview ⟨100, 0, 0⟩ "acc" [] []
        [⟨"acc", "取出", -200⟩] (fun _ => none)).netCashFlow ≠ 0) ∧
    (calculate_account_overview ⟨100, 0, 0⟩ "acc" [] []
        [⟨"acc", "取出", -200⟩] (fun _ => none)).pnlRatio = 0 ∧
    (calculate_account_overview ⟨100, 0, 0⟩ "acc" [] []
        [⟨"acc", "取出", -200⟩] (fun _ => none)).totalPnl
      / ((calculate_account_overview ⟨100, 0, 0⟩ "acc" [] []
          [⟨"acc", "取出", -200⟩] (fun _ => none)).totalCapital
        + (calculate_account_overview ⟨100, 0, 0⟩ "acc" [] []
          [⟨"acc", "取出", -200⟩] (fun _ => none)).netCashFlow) * 100 ≠ 0 := by
  refine ⟨?_, ?_, ?_⟩ <;>
    norm_num [calculate_account_overview, calculate_stock_summary, groupKeys,
      accountTransactions, accountOptions, accountFlows, openOptions,
      sumAmounts, List.filter]

/-- C3 amended: the returned pnl_ratio equals
total_pnl/(total_capital+net_cash_flow) (as a percentage) whenever that
denominator is strictly positive, and is exactly 0 whenever the
denominator is zero or negative. -/
theorem pnl_ratio_guard (acct : Account) (accountName : String)
    (ts : List Transaction) (opts : List OptionTrade)
    (flows : List CashFlowEntry) (prices : String → Option ℚ) :
    (0 < (calculate_account_overview acct accountName ts opts flows prices).totalCapital
        + (calculate_account_overview acct accountName ts opts flows prices).netCashFlow →
      (calculate_account_overview acct accountName ts opts flows prices).pnlRatio
        = (calculate_account_overview acct accountName ts opts flows prices).totalPnl
          / ((calculate_account_overview acct accountName ts opts flows prices).totalCapital
            + (calculate_account_overview acct accountName ts opts flows prices).netCashFlow)
          * 100) ∧
    ((calculate_account_overview acct accountName ts opts flows prices).totalCapital
        + (calculate_account_overview acct accountName ts opts flows prices).netCashFlow ≤ 0 →
      (calculate_account_overview acct accountName ts opts flows prices).pnlRatio = 0) := by
  unfold calculate_account_overview
  dsimp only
  constructor
  · intro h
    rw [if_pos h]
  · intro h
    rw [if_neg (not_lt.mpr h)]

/-- C3 amended claim witness at a concrete input with positive
denominator. -/
theorem pnl_ratio_guard_witness :
    (calculate_account_overview ⟨100, 0, 0⟩ "acc" [] [] [] (fun _ => none)).pnlRatio
      = (calculate_account_overview ⟨100, 0, 0⟩ "acc" [] [] [] (fun _ => none)).totalPnl
        / ((calculate_account_overview ⟨100, 0, 0⟩ "acc" [] [] [] (fun _ => none)).totalCapital
          + (calculate_account_overview ⟨100, 0, 0⟩ "acc" [] [] [] (fun _ => none)).netCashFlow)
        * 100 :=
  (pnl_ratio_guard ⟨100, 0, 0⟩ "acc" [] [] [] (fun _ => none)).1
    (by norm_num [calculate_account_overview, calculate_stock_summary, groupKeys,
      accountTransactions, accountOptions, accountFlows, openOptions, List.filter])

/-- Locked capital summed over the open rows equals the cash-secured-put
reservation summed over the open 卖Put rows. -/
theorem openOptions_lockedCapital_sum (l : List OptionTrade) :
    ((openOptions l).map lockedCapital).sum
      = ((l.filter (fun o => o.status = "持仓中" ∧ o.optionType = "卖Put")).map
          (fun o => o.strikePrice * o.contracts * 100)).sum := by
  induction l with
  | nil => rfl
  | cons o l ih =>
    by_cases h1 : o.status = "持仓中" <;> by_cases h2 : o.optionType = "卖Put" <;>
      simp [openOptions, lockedCapital, List.filter_cons, h1, h2, ih] <;>
      simp [openOptions] at ih <;> rw [ih]

/-- C6: in the account overview, locked_cash is exactly the sum of
strike·contracts·100 over the open 卖Put (SELL_PUT) positions of the
account, and every open 卖Call (SELL_CALL) row has 锁定资本 0. -/
theorem locked_cash_is_sell_put_reserve (acct : Account) (accountName : String)
    (ts : List Transaction) (opts : List OptionTrade)
    (flows : List CashFlowEntry) (prices : String → Option ℚ) :
    (calculate_account_overview acct accountName ts opts flows prices).lockedCash
      = (((accountOptions opts accountName).filter
          (fun o => o.status = "持仓中" ∧ o.optionType = "卖Put")).map
          (fun o => o.strikePrice * o.contracts * 100)).sum ∧
    ∀ o ∈ opts, o.status = "持仓中" → o.optionType = "卖Call" →
      lockedCapital o = 0 := by
  constructor
  · unfold calculate_account_overview
    dsimp only
    exact openOptions_lockedCapital_sum _
  · intro o _ h1 h2
    rw [lockedCapital, if_neg]
    rintro ⟨hput, _⟩
    rw [h2] at hput
    exact absurd hput (by decide)

/-- C6 witness: a single open SELL_PUT with strike 50 and 2 contracts
contributes exactly 10000 to locked_cash, and an open SELL_CALL row locks
no cash. -/
theorem locked_cash_witness :
    (calculate_account_overview ⟨100000, 0, 0⟩ "acc" []
        [⟨"AAPL", "acc", "卖Put", 50, 1, 2, 0, 0, none, "持仓中"⟩,
         ⟨"AAPL", "acc", "卖Call", 50, 1, 2, 0, 0, none, "持仓中"⟩]
        [] (fun _ => none)).lockedCash = 10000 ∧
    lockedCapital ⟨"AAPL", "acc", "卖Call", 50, 1, 2, 0, 0, none, "持仓中"⟩ = 0 := by
  constructor
  · rw [(locked_cash_is_sell_put_reserve ⟨100000, 0, 0⟩ "acc" []
        [⟨"AAPL", "acc", "卖Put", 50, 1, 2, 0, 0, none, "持仓中"⟩,
         ⟨"AAPL", "acc", "卖Call", 50, 1, 2, 0, 0, none, "持仓中"⟩]
        [] (fun _ => none)).1]
    simp +decide [accountOptions, List.filter_cons]
    norm_num
  · exact (locked_cash_is_sell_put_reserve ⟨100000, 0, 0⟩ "acc" []
        [⟨"AAPL", "acc", "卖Put", 50, 1, 2, 0, 0, none, "持仓中"⟩,
         ⟨"AAPL", "acc", "卖Call", 50, 1, 2, 0, 0, none, "持仓中"⟩]
        [] (fun _ => none)).2 _ (by simp) rfl rfl

/-- Signed amounts of all-BUY zero-commission transactions at one price
sum to minus the price times the signed share sum. -/
theorem signedAmount_sum_of_buys (l : List Transaction) (P : ℚ)
    (h : ∀ t ∈ l, t.transactionType = "买入" ∧ t.commission = 0 ∧ t.price = P) :
    (l.map signedAmount).sum = -(P * (l.map signedShares).sum) := by
  induction l with
  | nil => simp
  | cons t l ih =>
    obtain ⟨h1, h2, h3⟩ := h t (by simp)
    have hrest := ih (fun u hu => h u (List.mem_cons_of_mem _ hu))
    simp only [List.map_cons, List.sum_cons, hrest, signedAmount, signedShares,
      h1, h2, h3, if_pos]
    ring

/-- C4: for a (symbol, account) group whose transactions are all BUYs with
zero commission at one nonnegative price P, totalling S > 0 shares,
calculate_stock_summary contains a row for that group with 平均成本 = P
and 总投入 = S·P. -/
theorem stock_summary_buy_conservation (ts : List Transaction)
    (sym acct : String) (P S : ℚ)
    (hall : ∀ t ∈ ts, t.stockSymbol = sym → t.accountName = acct →
      t.transactionType = "买入" ∧ t.commission = 0 ∧ t.price = P)
    (hS : groupShares ts sym acct = S) (hpos : 0 < S) (hP : 0 ≤ P) :
    ∃ r ∈ calculate_stock_summary ts, r.symbol = sym ∧ r.account = acct ∧
      r.avgCost = P ∧ r.totalInvested = S * P := by
  have hgrp : ∀ t ∈ groupTransactions ts sym acct,
      t.transactionType = "买入" ∧ t.commission = 0 ∧ t.price = P := by
    intro t ht
    rw [groupTransactions, List.mem_filter] at ht
    obtain ⟨hts, hc⟩ := ht
    simp only [decide_eq_true_eq] at hc
    exact hall t hts hc.1 hc.2
  have hcf : groupCashFlow ts sym acct = -(P * S) := by
    rw [groupCashFlow, signedAmount_sum_of_buys _ P hgrp]
    rw [show ((groupTransactions ts sym acct).map signedShares).sum
        = groupShares ts sym acct from rfl, hS]
  have hne : groupTransactions ts sym acct ≠ [] := by
    intro he
    rw [groupShares, he] at hS
    simp at hS
    exact hpos.ne' hS.symm
  obtain ⟨t, ht⟩ := List.exists_mem_of_ne_nil _ hne
  have htf := ht
  rw [groupTransactions, List.mem_filter] at htf
  obtain ⟨hts, hc⟩ := htf
  simp only [decide_eq_true_eq] at hc
  have hkey : (sym, acct) ∈ groupKeys ts := by
    rw [groupKeys, List.mem_dedup]
    exact List.mem_map.mpr ⟨t, hts, by rw [hc.1, hc.2]⟩
  have havg : |(-(P * S))| / S = P := by
    rw [abs_neg, abs_of_nonneg (mul_nonneg hP hpos.le), mul_div_assoc,
      div_self hpos.ne', mul_one]
  have hrow : stockRow ts sym acct = some
      { symbol := sym, account := acct, currentShares := S,
        netCashFlow := -(P * S), avgCost := P, totalInvested := P * S } := by
    simp only [stockRow, hS, hcf, if_pos hpos, havg, Option.some.injEq]
  exact ⟨_, List.mem_filterMap.mpr ⟨(sym, acct), hkey, hrow⟩, rfl, rfl, rfl,
    mul_comm P S⟩

/-- C4 witness: one BUY of 10 shares at price 20 with no commission. -/
theorem stock_summary_buy_conservation_witness :
    ∃ r ∈ calculate_stock_summary
      [{ stockSymbol := "AAPL", accountName := "acc", transactionType := "买入",
         price := 20, shares := 10, commission := 0 }],
      r.symbol = "AAPL" ∧ r.account = "acc" ∧ r.avgCost = 20 ∧
      r.totalInvested = 10 * 20 :=
  stock_summary_buy_conservation _ "AAPL" "acc" 20 10
    (by intro t ht _ _; simp only [List.mem_singleton] at ht; subst ht
        exact ⟨rfl, rfl, rfl⟩)
    (by simp +decide [groupShares, groupTransactions, List.filter_cons,
          signedShares])
    (by norm_num) (by norm_num)

/-- Holding-count sub-score bounds. -/
theorem countScore_bounds (n : Nat) : 5 ≤ countScore n ∧ countScore n ≤ 25 := by
  unfold countScore
  split_ifs <;> omega

/-- Correlation sub-score bounds. -/
theorem corrScore_bounds (a : Option ℚ) : 5 ≤ corrScore a ∧ corrScore a ≤ 35 := by
  cases a with
  | none => exact ⟨by norm_num [corrScore], by norm_num [corrScore]⟩
  | some x =>
    simp only [corrScore]
    split_ifs <;> omega

/-- Effective-N sub-score bounds. -/
theorem effectiveScore_bounds (r : ℚ) :
    5 ≤ effectiveScore r ∧ effectiveScore r ≤ 20 := by
  unfold effectiveScore
  split_ifs <;> omega

/-- Sector sub-score bounds. -/
theorem sectorScore_bounds (holdings : List String)
    (sdOpt : Option (List (String × String))) :
    5 ≤ (sectorScoreAndCount holdings sdOpt).1 ∧
    (sectorScoreAndCount holdings sdOpt).1 ≤ 20 := by
  unfold sectorScoreAndCount
  rcases sdOpt with _ | (_ | ⟨p, sd⟩)
  · exact ⟨by norm_num, by norm_num⟩
  · exact ⟨by norm_num, by norm_num⟩
  · dsimp only
    split_ifs <;> omega

/-- C8: calculate_diversification_score always returns a score between 0
and 100, and on an empty holdings list it returns exactly score 0 with
rating 无持仓 (no holdings). -/
theorem diversification_score_bounds (holdings : List String)
    (mOpt : Option CorrMatrix) (wOpt : Option (List (String × ℚ)))
    (sdOpt : Option (List (String × String))) :
    0 ≤ (calculate_diversification_score holdings mOpt wOpt sdOpt).score ∧
    (calculate_diversification_score holdings mOpt wOpt sdOpt).score ≤ 100 ∧
    (holdings = [] →
      (calculate_diversification_score holdings mOpt wOpt sdOpt).score = 0 ∧
      (calculate_diversification_score holdings mOpt wOpt sdOpt).rating = "无持仓") := by
  cases holdings with
  | nil => exact ⟨Nat.zero_le _, by norm_num [calculate_diversification_score],
      fun _ => ⟨rfl, rfl⟩⟩
  | cons x t =>
    refine ⟨Nat.zero_le _, ?_, fun h => absurd h (by simp)⟩
    show countScore (x :: t).length +
        (match mOpt with
         | none => 35
         | some m => corrScore (avgUpperCorrelation m)) +
        _ + _ ≤ 100
    have h1 := (countScore_bounds (x :: t).length).2
    have h3 := (effectiveScore_bounds
      (if 0 < (x :: t).length
        then calculate_effective_n (x :: t) mOpt wOpt / ((x :: t).length : ℚ)
        else 0)).2
    have h4 := (sectorScore_bounds (x :: t) sdOpt).2
    have h2 : (match mOpt with
        | none => 35
        | some m => corrScore (avgUpperCorrelation m)) ≤ 35 := by
      cases mOpt with
      | none => exact le_refl 35
      | some m => exact (corrScore_bounds (avgUpperCorrelation m)).2
    omega

/-- C8 witness: the empty holdings list. -/
theorem diversification_score_bounds_witness :
    (calculate_diversification_score [] none none none).score = 0 ∧
    (calculate_diversification_score [] none none none).rating = "无持仓" :=
  (diversification_score_bounds [] none none none).2.2 rfl

/-- Sum of amounts over a cons. -/
theorem sumAmounts_cons (x : CashFlowEntry) (l : List CashFlowEntry) :
    sumAmounts (x :: l) = x.amount + sumAmounts l := by
  simp [sumAmounts]

/-- Membership in the enumerated types splits over the four buckets. -/
theorem mem_enumerated_iff (a : String) :
    a ∈ enumeratedTypes ↔
      (a ∈ operatingTypes ∨ a ∈ investingTypes ∨ a ∈ financingTypes ∨
       a = "佣金") := by
  simp [enumeratedTypes, or_assoc]

/-- Operating types belong to no other bucket. -/
theorem operating_excl (a : String) (h : a ∈ operatingTypes) :
    a ∉ investingTypes ∧ a ∉ financingTypes ∧ a ≠ "佣金" := by
  fin_cases h <;> exact ⟨by decide, by decide, by decide⟩

/-- Investing types belong to no later bucket. -/
theorem investing_excl (a : String) (h : a ∈ investingTypes) :
    a ∉ financingTypes ∧ a ≠ "佣金" := by
  fin_cases h <;> exact ⟨by decide, by decide⟩

/-- Financing types are not the commission type. -/
theorem financing_excl (a : String) (h : a ∈ financingTypes) : a ≠ "佣金" := by
  fin_cases h <;> decide

/-- Bucket subtotals sum to the total over rows with enumerated types. -/
theorem bucket_sum_split (l : List CashFlowEntry) :
    sumAmounts (l.filter (fun f => f.flowType ∈ operatingTypes))
      + sumAmounts (l.filter (fun f => f.flowType ∈ investingTypes))
      + sumAmounts (l.filter (fun f => f.flowType ∈ financingTypes))
      + sumAmounts (l.filter (fun f => f.flowType = "佣金"))
      = sumAmounts (l.filter (fun f => f.flowType ∈ enumeratedTypes)) := by
  induction l with
  | nil => simp [sumAmounts]
  | cons g l ih =>
    by_cases h1 : g.flowType ∈ operatingTypes
    · obtain ⟨e1, e2, e3⟩ := operating_excl _ h1
      have he : g.flowType ∈ enumeratedTypes := (mem_enumerated_iff _).mpr (Or.inl h1)
      simp +decide [List.filter_cons, h1, e1, e2, e3, he, sumAmounts_cons]
      linarith [ih]
    · by_cases h2 : g.flowType ∈ investingTypes
      · obtain ⟨e2, e3⟩ := investing_excl _ h2
        have he : g.flowType ∈ enumeratedTypes :=
          (mem_enumerated_iff _).mpr (Or.inr (Or.inl h2))
        simp +decide [List.filter_cons, h1, h2, e2, e3, he, sumAmounts_cons]
        linarith [ih]
      · by_cases h3 : g.flowType ∈ financingTypes
        · have e3 := financing_excl _ h3
          have he : g.flowType ∈ enumeratedTypes :=
            (mem_enumerated_iff _).mpr (Or.inr (Or.inr (Or.inl h3)))
          simp +decide [List.filter_cons, h1, h2, h3, e3, he, sumAmounts_cons]
          linarith [ih]
        · by_cases h4 : g.flowType = "佣金"
          · have he : g.flowType ∈ enumeratedTypes :=
              (mem_enumerated_iff _).mpr (Or.inr (Or.inr (Or.inr h4)))
            simp +decide [List.filter_cons, h1, h2, h3, h4, he, sumAmounts_cons]
            linarith [ih]
          · have he : g.flowType ∉ enumeratedTypes := by
              rw [mem_enumerated_iff]
              push_neg
              exact ⟨h1, h2, h3, h4⟩
            simp +decide [List.filter_cons, h1, h2, h3, h4, he, sumAmounts_cons]
            linarith [ih]

/-- Net cash flow of the statement is the sum over rows with enumerated
types only. -/
theorem statement_net_eq (flows : List CashFlowEntry) :
    (get_cash_flow_statement flows).netCashFlow
      = sumAmounts (flows.filter (fun f => f.flowType ∈ enumeratedTypes)) := by
  cases flows with
  | nil => simp [get_cash_flow_statement, sumAmounts]
  | cons g l =>
    dsimp only [get_cash_flow_statement]
    exact bucket_sum_split (g :: l)

/-- C10: a cash flow row whose type is outside the fixed enumerations
contributes to no bucket subtotal and is excluded from the net, so the
whole statement is unchanged by such a row, and the net equals the sum of
amounts over only the rows with enumerated types. -/
theorem cash_flow_statement_skips_unknown_types (flows : List CashFlowEntry)
    (f : CashFlowEntry) (hf : f.flowType ∉ enumeratedTypes) :
    get_cash_flow_statement (f :: flows) = get_cash_flow_statement flows ∧
    (get_cash_flow_statement (f :: flows)).netCashFlow
      = sumAmounts (flows.filter (fun g => g.flowType ∈ enumeratedTypes)) := by
  have hex : f.flowType ∉ operatingTypes ∧ f.flowType ∉ investingTypes ∧
      f.flowType ∉ financingTypes ∧ f.flowType ≠ "佣金" := by
    rw [mem_enumerated_iff] at hf
    push_neg at hf
    exact hf
  obtain ⟨e1, e2, e3, e4⟩ := hex
  constructor
  · cases flows with
    | nil =>
      dsimp only [get_cash_flow_statement]
      simp [List.filter_cons, e1, e2, e3, e4, sumAmounts]
    | cons g l =>
      dsimp only [get_cash_flow_statement]
      simp [List.filter_cons, e1, e2, e3, e4]
  · rw [statement_net_eq, List.filter_cons]
    simp [hf]

/-- C10 witness: a 测试 row changes neither the buckets nor the net. -/
theorem cash_flow_statement_skips_unknown_types_witness :
    get_cash_flow_statement [⟨"acc", "测试", 5⟩, ⟨"acc", "分红", 10⟩]
      = get_cash_flow_statement [⟨"acc", "分红", 10⟩] ∧
    (get_cash_flow_statement [⟨"acc", "测试", 5⟩, ⟨"acc", "分红", 10⟩]).netCashFlow
      = sumAmounts (([⟨"acc", "分红", 10⟩] : List CashFlowEntry).filter
          (fun g => g.flowType ∈ enumeratedTypes)) :=
  cash_flow_statement_skips_unknown_types _ _ (by decide)

/-- Final visited list of the absorption scan is the initial visited list
followed by the absorbed symbols. -/
theorem absorbGo_snd_eq (e : String → String → ℚ) (th : ℚ) (s1 : String)
    (i : Nat) :
    ∀ (l : List (Nat × String)) (visited : List String),
    (absorbGo e th s1 i l visited).2
      = visited ++ (absorbGo e th s1 i l visited).1 := by
  intro l
  induction l with
  | nil => intro visited; simp [absorbGo]
  | cons p rest ih =>
    intro visited
    obtain ⟨j, s2⟩ := p
    simp only [absorbGo]
    split_ifs with h
    · dsimp only
      rw [ih]
      simp
    · exact ih visited

/-- Absorbed symbols come from the scanned column list. -/
theorem absorbGo_fst_subset (e : String → String → ℚ) (th : ℚ) (s1 : String)
    (i : Nat) :
    ∀ (l : List (Nat × String)) (visited : List String) (x : String),
    x ∈ (absorbGo e th s1 i l visited).1 → x ∈ l.map Prod.snd := by
  intro l
  induction l with
  | nil => intro visited x hx; simp [absorbGo] at hx
  | cons p rest ih =>
    intro visited x hx
    obtain ⟨j, s2⟩ := p
    simp only [absorbGo] at hx
    split_ifs at hx with h
    · dsimp only at hx
      rcases List.mem_cons.mp hx with h1 | h1
      · simp [h1]
      · exact List.mem_cons_of_mem _ (ih _ x h1)
    · exact List.mem_cons_of_mem _ (ih _ x hx)

/-- Absorption preserves distinctness of the visited list extended by the
absorbed symbols. -/
theorem absorbGo_nodup (e : String → String → ℚ) (th : ℚ) (s1 : String)
    (i : Nat) :
    ∀ (l : List (Nat × String)) (visited : List String), visited.Nodup →
    (visited ++ (absorbGo e th s1 i l visited).1).Nodup := by
  intro l
  induction l with
  | nil => intro visited h; simpa [absorbGo]
  | cons p rest ih =>
    intro visited h
    obtain ⟨j, s2⟩ := p
    simp only [absorbGo]
    split_ifs with hcond
    · dsimp only
      have := ih (visited ++ [s2] ++ [])
        (by simp [List.nodup_append, h, hcond.2.1])
      simpa [List.append_assoc] using this
    · exact ih visited h

/-- Clustering invariant: the initial visited list followed by all emitted
cluster members stays duplicate free. -/
theorem clustersGo_flat_nodup (e : String → String → ℚ) (th : ℚ)
    (all : List (Nat × String)) :
    ∀ (rest : List (Nat × String)) (visited : List String), visited.Nodup →
    (visited
      ++ ((clustersGo e th all rest visited).map (fun c => c.symbols)).flatten).Nodup := by
  intro rest
  induction rest with
  | nil => intro visited h; simpa [clustersGo]
  | cons p rest ih =>
    intro visited h
    obtain ⟨i, s1⟩ := p
    simp only [clustersGo]
    by_cases hv : s1 ∈ visited
    · rw [if_pos hv]
      exact ih visited h
    · rw [if_neg hv]
      have hsnd := absorbGo_snd_eq e th s1 i all (visited ++ [s1])
      have hnodup : ((visited ++ [s1])
          ++ (absorbGo e th s1 i all (visited ++ [s1])).1).Nodup :=
        absorbGo_nodup e th s1 i all (visited ++ [s1])
          (by simp [List.nodup_append, h, hv])
      have hvis : ((absorbGo e th s1 i all (visited ++ [s1])).2).Nodup := by
        rw [hsnd]
        exact hnodup
      by_cases hlen :
          1 < (s1 :: (absorbGo e th s1 i all (visited ++ [s1])).1).length
      · rw [if_pos hlen]
        have hrec := ih ((absorbGo e th s1 i all (visited ++ [s1])).2) hvis
        nth_rewrite 1 [hsnd] at hrec
        simp only [List.map_cons, List.flatten_cons]
        simpa [List.append_assoc] using hrec
      · rw [if_neg hlen]
        have hfst0 : (absorbGo e th s1 i all (visited ++ [s1])).1 = [] := by
          apply List.length_eq_zero.mp
          have := not_lt.mp hlen
          simp only [List.length_cons] at this
          omega
        have hrec := ih ((absorbGo e th s1 i all (visited ++ [s1])).2) hvis
        nth_rewrite 1 [hsnd] at hrec
        rw [hfst0, List.append_nil] at hrec
        have hsub : List.Sublist
            (visited
              ++ ((clustersGo e th all rest
                    (absorbGo e th s1 i all (visited ++ [s1])).2).map
                  (fun c => c.symbols)).flatten)
            ((visited ++ [s1])
              ++ ((clustersGo e th all rest
                    (absorbGo e th s1 i all (visited ++ [s1])).2).map
                  (fun c => c.symbols)).flatten) := by
          rw [List.append_assoc]
          exact List.Sublist.append_left (List.sublist_append_right [s1] _) visited
        exact hrec.sublist hsub

/-- Clustering invariant: every emitted cluster has more than one member
and all members come from the scanned column lists. -/
theorem clustersGo_mem_size (e : String → String → ℚ) (th : ℚ)
    (all : List (Nat × String)) :
    ∀ (rest : List (Nat × String)) (visited : List String),
    ∀ c ∈ clustersGo e th all rest visited,
      2 ≤ c.symbols.length ∧
      ∀ s ∈ c.symbols, s ∈ rest.map Prod.snd ∨ s ∈ all.map Prod.snd := by
  intro rest
  induction rest with
  | nil => intro visited c hc; simp [clustersGo] at hc
  | cons p rest ih =>
    intro visited c hc
    obtain ⟨i, s1⟩ := p
    simp only [clustersGo] at hc
    by_cases hv : s1 ∈ visited
    · rw [if_pos hv] at hc
      obtain ⟨h1, h2⟩ := ih visited c hc
      exact ⟨h1, fun s hs => (h2 s hs).imp (List.mem_cons_of_mem _) id⟩
    · rw [if_neg hv] at hc
      by_cases hlen :
          1 < (s1 :: (absorbGo e th s1 i all (visited ++ [s1])).1).length
      · rw [if_pos hlen] at hc
        rcases List.mem_cons.mp hc with hhead | htail
        · subst hhead
          refine ⟨hlen, ?_⟩
          intro s hs
          rcases List.mem_cons.mp hs with h | h
          · left
            simp [h]
          · right
            exact absorbGo_fst_subset e th s1 i all _ s h
        · obtain ⟨hh1, hh2⟩ := ih _ c htail
          exact ⟨hh1, fun s hs => (hh2 s hs).imp (List.mem_cons_of_mem _) id⟩
      · rw [if_neg hlen] at hc
        obtain ⟨hh1, hh2⟩ := ih _ c hc
        exact ⟨hh1, fun s hs => (hh2 s hs).imp (List.mem_cons_of_mem _) id⟩

/-- C9: the clusters returned by identify_correlation_clusters are
pairwise disjoint (their concatenated member lists are duplicate free),
each has at least 2 distinct symbols, and every member is a column of the
input matrix. -/
theorem correlation_clusters_invariants (m : CorrMatrix) (th : ℚ) :
    (((identify_correlation_clusters m th).map (fun c => c.symbols)).flatten).Nodup ∧
    ∀ c ∈ identify_correlation_clusters m th,
      2 ≤ c.symbols.length ∧ c.symbols.Nodup ∧
      ∀ s ∈ c.symbols, s ∈ m.symbols := by
  have hflat := clustersGo_flat_nodup m.entry th m.symbols.enum m.symbols.enum
    [] List.nodup_nil
  rw [List.nil_append] at hflat
  refine ⟨hflat, ?_⟩
  intro c hc
  obtain ⟨h1, h2⟩ := clustersGo_mem_size m.entry th m.symbols.enum
    m.symbols.enum [] c hc
  refine ⟨h1, ?_, ?_⟩
  · exact (List.nodup_flatten.mp hflat).1 c.symbols (List.mem_map_of_mem _ hc)
  · intro s hs
    rcases h2 s hs with h | h <;> rw [List.enum_map_snd] at h <;> exact h

/-- C9 witness: a two-column matrix with correlation 1 produces the single
cluster with both symbols, to which the invariants apply. -/
theorem correlation_clusters_invariants_witness :
    2 ≤ (Cluster.mk ["A", "B"] 1 2).symbols.length ∧
    (Cluster.mk ["A", "B"] 1 2).symbols.Nodup ∧
    ∀ s ∈ (Cluster.mk ["A", "B"] 1 2).symbols,
      s ∈ (CorrMatrix.mk ["A", "B"] (fun _ _ => 1)).symbols :=
  (correlation_clusters_invariants (CorrMatrix.mk ["A", "B"] (fun _ _ => 1))
      (1/2)).2
    (Cluster.mk ["A", "B"] 1 2)
    (by
      have hq : ((1 : ℚ)/2) ≤ |(1 : ℚ)| := by norm_num
      simp +decide [identify_correlation_clusters, clustersGo, absorbGo,
        List.enum, List.enumFrom, hq]
      norm_num [avgUpperCorrelation, upperColMean])

end PortfolioManager
